import Mathlib

/-!
Shallow embedding of `ytx.py` (repository luckman212/ytx).

The Python program extracts YouTube URLs from its inputs, resolves each URL
to a `(video_id, timestamp)` pair (`get_video_info`), deduplicates by video
id (`extract_video_id`), enriches each pending record through the YouTube
API (`get_youtube_metadata` / `update_video_metadata`), converts ISO-8601
durations (`parse_iso8601_duration`, `format_duration`), and renders the
results (markdown / extended / alfred / plain).

Strings are modeled as Lean `String` (a wrapper around `List Char`); the
URL-parsing layer (`urllib.parse.urlparse` / `parse_qs`) is embedded as
executable functions over `List Char`, following the CPython implementation
of `urlsplit`, `_splitparams`, `parse_qsl` and `unquote_plus`.  Network and
process effects are represented explicitly: the metadata fetch is an
abstract function argument, and the number of network requests performed is
counted by the program model.
-/

abbrev Chars := List Char

/-- Break a character list at the first element satisfying `p`.  The second
component begins with the found element (it is empty when no element
satisfies `p`).  This models Python's `str.find` / `str.split(sep, 1)`
pattern used throughout `urllib.parse`. -/
def breakAt (p : Char → Bool) : Chars → Chars × Chars
  | [] => ([], [])
  | c :: cs =>
    if p c then ([], c :: cs)
    else
      let r := breakAt p cs
      (c :: r.1, r.2)

/-- Python `str.split(sep)` (all occurrences, empty pieces kept). -/
def splitSep (sep : Char) : Chars → List Chars
  | [] => [[]]
  | c :: cs =>
    if c == sep then [] :: splitSep sep cs
    else
      match splitSep sep cs with
      | [] => [[c]]
      | p :: ps => (c :: p) :: ps

/-- Hexadecimal digit value, as accepted by `urllib.parse.unquote`. -/
def hexDigitVal (c : Char) : Option Nat :=
  if c.isDigit then some (c.toNat - '0'.toNat)
  else if 'a' ≤ c ∧ c ≤ 'f' then some (c.toNat - 'a'.toNat + 10)
  else if 'A' ≤ c ∧ c ≤ 'F' then some (c.toNat - 'A'.toNat + 10)
  else none

/-- Percent-decoding of `urllib.parse.unquote`: a `%` followed by two hex
digits decodes to that byte; an invalid escape keeps the literal `%`.
(Multi-byte UTF-8 escape runs are modeled byte-wise; no claim involves
non-ASCII escapes.) -/
def pctDecode : Chars → Chars
  | [] => []
  | c :: rest =>
    if c == '%' then
      match rest with
      | a :: b :: rest2 =>
        match hexDigitVal a, hexDigitVal b with
        | some ha, some hb => Char.ofNat (16 * ha + hb) :: pctDecode rest2
        | _, _ => '%' :: pctDecode (a :: b :: rest2)
      | [a] => ['%', a]
      | [] => ['%']
    else c :: pctDecode rest

/-- `urllib.parse.unquote_plus`: `+` becomes a space, then percent-decode. -/
def unquote_plus (cs : Chars) : Chars :=
  pctDecode (cs.map (fun c => if c == '+' then ' ' else c))

/-- `urllib.parse.parse_qsl` with default arguments: split the query on `&`;
skip empty fields, fields without `=`, and fields with an empty value
(`keep_blank_values=False`); unquote both name and value. -/
def parse_qsl (qs : Chars) : List (Chars × Chars) :=
  (splitSep '&' qs).filterMap fun part =>
    if part.isEmpty then none
    else
      match breakAt (fun c => c == '=') part with
      | (_, []) => none
      | (name, _ :: value) =>
        if value.isEmpty then none
        else some (unquote_plus name, unquote_plus value)

/-- First value stored under `key`: `parse_qs(qs).get(key, [None])[0]`
(`parse_qs` groups values per key in encounter order, so index 0 is the
first occurrence). -/
def firstQueryValue (qsl : List (Chars × Chars)) (key : Chars) : Option Chars :=
  (qsl.find? (fun p => p.1 == key)).map (fun p => p.2)

/-- Characters of `scheme_chars` in `urllib.parse`. -/
def schemeChar (c : Char) : Bool :=
  c.isAlpha || c.isDigit || c == '+' || c == '-' || c == '.'

/-- WHATWG C0-control-or-space class stripped from the front of a URL. -/
def whatwgStrip (c : Char) : Bool := c.toNat ≤ 0x20

/-- The bytes `urllib.parse` removes from anywhere in a URL. -/
def tabCrLf (c : Char) : Bool := c == '\t' || c == '\r' || c == '\n'

structure UrlParts where
  scheme : Chars
  netloc : Chars
  path : Chars
  query : Chars
deriving DecidableEq

/-- Substring test, Python's `needle in haystack` for strings. -/
def containsSub (needle : Chars) : Chars → Bool
  | [] => needle.isEmpty
  | c :: rest => needle.isPrefixOf (c :: rest) || containsSub needle rest

/-- Model of `urllib.parse.urlsplit` (components used by `ytx.py`):
strip leading control/space characters, delete tab/CR/LF, split off a
syntactically valid scheme, then the `//netloc` part (first `/?#` ends it;
unbalanced square brackets raise `ValueError`, modeled as `none`), then
drop a `#fragment` and split off the `?query`. -/
def urlsplitModel (url0 : Chars) : Option UrlParts :=
  let url1 := url0.dropWhile whatwgStrip
  let url := url1.filter (fun c => !tabCrLf c)
  let s := breakAt (fun c => c == ':') url
  let hasScheme :=
    !s.2.isEmpty && !s.1.isEmpty &&
      (match s.1 with
       | c :: _ => c.isAlpha
       | [] => false) &&
      s.1.all schemeChar
  let scheme := if hasScheme then s.1.map Char.toLower else []
  let rest := if hasScheme then s.2.tail else url
  let hasNetloc := "//".data.isPrefixOf rest
  let n := breakAt (fun c => c == '/' || c == '?' || c == '#') (rest.drop 2)
  let netloc := if hasNetloc then n.1 else []
  let rest2 := if hasNetloc then n.2 else rest
  if hasNetloc && ((netloc.contains '[') != (netloc.contains ']')) then none
  else
    let noFrag := (breakAt (fun c => c == '#') rest2).1
    let q := breakAt (fun c => c == '?') noFrag
    some ⟨scheme, netloc, q.1, q.2.tail⟩

/-- `urllib.parse._splitparams`: remove a `;params` suffix from the last
path segment, returning the path part only. -/
def splitparams (url : Chars) : Chars :=
  let rev := url.reverse
  let br := breakAt (fun c => c == '/') rev
  if br.2.isEmpty then (breakAt (fun c => c == ';') url).1
  else
    let seg := br.1.reverse
    let sb := breakAt (fun c => c == ';') seg
    if sb.2.isEmpty then url else br.2.reverse ++ sb.1

/-- Schemes of `urllib.parse.uses_params`. -/
def usesParams : List Chars :=
  (["", "ftp", "hdl", "prospero", "http", "imap", "https", "shttp", "rtsp",
    "rtspu", "sip", "sips", "mms", "sftp", "tel"].map String.data)

/-- Model of `urllib.parse.urlparse`: `urlsplit` plus `;params` removal
from the path (for schemes in `uses_params`). -/
def urlparseModel (url : Chars) : Option UrlParts :=
  match urlsplitModel url with
  | none => none
  | some u =>
    if usesParams.contains u.scheme && u.path.contains ';' then
      some ⟨u.scheme, u.netloc, splitparams u.path, u.query⟩
    else some u

/-- `get_video_info` (ytx.py lines 191-209) over character lists:
classify the parsed URL by path prefix and host substring, and read the
timestamp from the first `t` query parameter.  A URL-parsing failure
(the `try/except` around `urlparse`) yields `(none, none)`. -/
def get_video_info_chars (url : Chars) : Option Chars × Option Chars :=
  match urlparseModel url with
  | none => (none, none)
  | some pr =>
    let netloc := pr.netloc.map Char.toLower
    let qs := parse_qsl pr.query
    let timestamp := firstQueryValue qs "t".data
    let video_id :=
      if "/embed/".data.isPrefixOf pr.path then some (pr.path.drop 7)
      else if "/shorts/".data.isPrefixOf pr.path then some (pr.path.drop 8)
      else if containsSub "youtu.be".data netloc then some (pr.path.drop 1)
      else if containsSub "youtube.com".data netloc then firstQueryValue qs "v".data
      else none
    (video_id, timestamp)

/-- `get_video_info` at the `String` level. -/
def get_video_info (url : String) : Option String × Option String :=
  let r := get_video_info_chars url.data
  (r.1.map String.mk, r.2.map String.mk)

/-- Python `timestamp.rstrip("s")`: remove every trailing `'s'`. -/
def rstripChars (cs : Chars) : Chars :=
  (cs.reverse.dropWhile (fun c => c == 's')).reverse

def rstrip_s (s : String) : String := String.mk (rstripChars s.data)

/-- The `YT_Video` dataclass (ytx.py lines 38-49): only `video_id` is
required; every other field defaults to `None`. -/
structure YT_Video where
  video_id : String
  title : Option String := none
  timestamp : Option String := none
  channel : Option String := none
  post_date : Option String := none
  view_count : Option Int := none
  duration : Option String := none
  short_url : Option String := none
  markdown_link : Option String := none
  extended_link : Option String := none
deriving DecidableEq

/-- Loop body of `extract_video_id` (ytx.py lines 211-221): the Python dict
keyed by `video_id` is an insertion-ordered association list, and an id
already present is never overwritten. -/
def extractGo (acc : List YT_Video) : List String → List YT_Video
  | [] => acc
  | item :: items =>
    match get_video_info item with
    | (none, _) => extractGo acc items
    | (some vid, ts) =>
      if acc.any (fun r => r.video_id == vid) then extractGo acc items
      else extractGo (acc ++ [{ video_id := vid, timestamp := ts.map rstrip_s }]) items

def extract_video_id (items : List String) : List YT_Video := extractGo [] items

/-- Decimal value of a digit string, Python `int` on a digit-only string. -/
def decVal (ds : Chars) : Nat :=
  ds.foldl (fun acc c => 10 * acc + (c.toNat - '0'.toNat)) 0

/-- One optional regex group `(\d+X)?` of `re.match(r'PT(\d+H)?(\d+M)?(\d+S)?', s)`:
a maximal nonempty digit run must be followed by the unit letter, otherwise
the group matches nothing and consumes no input (the regex engine's
backtracking cannot succeed otherwise, since shrinking the digit run leaves
a digit where the unit letter is required). -/
def isoGroup (unit : Char) (cs : Chars) : Option Nat × Chars :=
  let s := cs.span (fun c => c.isDigit)
  match s.1, s.2 with
  | [], _ => (none, cs)
  | _, [] => (none, cs)
  | ds, u :: rest => if u == unit then (some (decVal ds), rest) else (none, cs)

/-- `parse_iso8601_duration` (ytx.py lines 170-177).  `re.match` anchors at
the start only: trailing unmatched input is ignored, and a string that does
not even start with `PT` gives no match, hence 0. -/
def parse_iso8601_duration_chars (cs : Chars) : Nat :=
  match cs with
  | 'P' :: 'T' :: rest =>
    let g1 := isoGroup 'H' rest
    let g2 := isoGroup 'M' g1.2
    let g3 := isoGroup 'S' g2.2
    (g1.1.getD 0) * 3600 + (g2.1.getD 0) * 60 + (g3.1.getD 0)
  | _ => 0

def parse_iso8601_duration (s : String) : Nat :=
  parse_iso8601_duration_chars s.data

/-- Python `f"{n:02}"` for a nonnegative integer. -/
def pad2 (n : Nat) : String :=
  if n < 10 then "0" ++ toString n else toString n

/-- `format_duration` (ytx.py lines 179-182) on nonnegative seconds. -/
def format_duration (seconds : Nat) : String :=
  let hours := seconds / 3600
  let rem := seconds % 3600
  let minutes := rem / 60
  let secs := rem % 60
  if hours ≠ 0 then toString hours ++ ":" ++ pad2 minutes ++ ":" ++ pad2 secs
  else toString minutes ++ ":" ++ pad2 secs

/-- Rendering rule as worded by claim C3 ("minutes and seconds zero-padded
to two digits" in both shapes); compared against `format_duration`, the
definition taken from the source. -/
def format_duration_claimC3 (seconds : Nat) : String :=
  let hours := seconds / 3600
  let rem := seconds % 3600
  let minutes := rem / 60
  let secs := rem % 60
  if hours ≠ 0 then toString hours ++ ":" ++ pad2 minutes ++ ":" ++ pad2 secs
  else pad2 minutes ++ ":" ++ pad2 secs

/-- Whole-string match of `PT(\d+H)?(\d+M)?(\d+S)?`, as worded by claim C8
("the whole string fails to match that pattern"); compared against
`parse_iso8601_duration`, whose `re.match` only anchors at the start. -/
def iso_full_match (s : String) : Bool :=
  match s.data with
  | 'P' :: 'T' :: rest =>
    let g1 := isoGroup 'H' rest
    let g2 := isoGroup 'M' g1.2
    let g3 := isoGroup 'S' g2.2
    g3.2.isEmpty
  | _ => false

/-- The metadata dictionary returned by a successful `get_youtube_metadata`
(ytx.py lines 160-168): every key is present with a string (or int) value. -/
structure Metadata where
  video_id : String
  title : String
  channel : String
  post_date : String
  view_count : Int
  duration : String
  short_url : String
deriving DecidableEq

/-- `str.maketrans("[]", "()")` applied per character. -/
def mdSafeChar (c : Char) : Char :=
  if c == '[' then '(' else if c == ']' then ')' else c

/-- `YT_Video.from_metadata` (ytx.py lines 51-73). -/
def YT_Video.from_metadata (m : Metadata) (timestamp : Option String) : YT_Video :=
  let title_mdsafe := String.mk (m.title.data.map mdSafeChar)
  let short_url :=
    match timestamp with
    | some ts => if m.short_url ≠ "" then m.short_url ++ "?t=" ++ ts else m.short_url
    | none => m.short_url
  let md_link := "[" ++ title_mdsafe ++ "](" ++ short_url ++ ")"
  let md_extended_link :=
    "[" ++ title_mdsafe ++ " (" ++ m.duration ++ ")](" ++ short_url ++ ") - " ++ m.post_date
  { video_id := m.video_id
    title := some m.title
    timestamp := timestamp
    channel := some m.channel
    post_date := some m.post_date
    view_count := some m.view_count
    duration := some m.duration
    short_url := some short_url
    markdown_link := some md_link
    extended_link := some md_extended_link }

/-- Outcome of the metadata API call: `get_youtube_metadata` returns either
a dict containing an `"Error"` key or the full metadata dict.  The network
itself is abstract. -/
inductive MetaResult where
  | err (msg : String)
  | ok (m : Metadata)

/-- `update_video_metadata` (ytx.py lines 223-228): on any error the pending
record is returned unchanged. -/
def update_video_metadata (fetch : String → MetaResult) (video : YT_Video) : YT_Video :=
  match fetch video.video_id with
  | .err _ => video
  | .ok m => YT_Video.from_metadata m video.timestamp

/-- Python truthiness of the `API_KEY` module variable (`None` or a
string). -/
def truthyKey : Option String → Bool
  | none => false
  | some s => !s.isEmpty

structure AlfredItem where
  title : String
  subtitle : Option String := none
  arg : Option String := none
  valid : Bool := true
  icon : Option String := none
deriving DecidableEq

/-- Final effect of one program run: the payload printed before exiting. -/
inductive ProgOutput where
  | alfred (items : List AlfredItem)
  | text (s : String)
  | plainRecords (records : List YT_Video)
  | stderrExit (msg : String)
deriving DecidableEq

/-- The single-item payload of `check_apikey` in Alfred (ytx.py 103-115). -/
def apikey_error_items : List AlfredItem :=
  [{ title := "API key missing or invalid. Check workflow configuration!",
     icon := some "api-err.png", valid := false }]

/-- `check_apikey`: `none` means execution continues; `some out` means the
process prints `out` and exits (`sys.exit`). -/
def check_apikey_exit (apiKey : Option String) (inAlfred : Bool) : Option ProgOutput :=
  if truthyKey apiKey then none
  else if inAlfred then some (.alfred apikey_error_items)
  else some (.stderrExit "API key missing or invalid (export \x27YTX_API_KEY\x27 before running)")

/-- The enrichment loop of `__main__` (ytx.py lines 298-300): each
`update_video_metadata` call runs `get_youtube_metadata`, which first runs
`check_apikey` (possibly exiting) and then performs exactly one network
request.  Returns the results (or the early-exit payload) together with the
number of network requests performed. -/
def enrichAll (apiKey : Option String) (inAlfred : Bool) (fetch : String → MetaResult) :
    List YT_Video → (Except ProgOutput (List YT_Video)) × Nat
  | [] => (.ok [], 0)
  | v :: vs =>
    match check_apikey_exit apiKey inAlfred with
    | some out => (.error out, 0)
    | none =>
      match enrichAll apiKey inAlfred fetch vs with
      | (.ok rest, n) => (.ok (update_video_metadata fetch v :: rest), n + 1)
      | (.error out, n) => (.error out, n + 1)

/-- Sort key of `sorted(..., key=lambda x: datetime.strptime(x.post_date, "%Y-%m-%d"), reverse=True)`:
for well-formed `YYYY-MM-DD` dates (month and day below 100) the `datetime`
order coincides with this numeric encoding. -/
def dateVal (s : String) : Nat :=
  match splitSep '-' s.data with
  | [y, m, d] => decVal y * 10000 + decVal m * 100 + decVal d
  | _ => 0

def postKey (v : YT_Video) : Nat :=
  match v.post_date with
  | some s => dateVal s
  | none => 0

/-- Stable descending insertion: a record moves left past exactly the
records with a strictly smaller key, so records with equal keys keep their
original relative order — the behavior of Python's stable `sorted` with
`reverse=True` (any two stable sorts agree). -/
def insertDesc (v : YT_Video) : List YT_Video → List YT_Video
  | [] => [v]
  | w :: ws => if postKey w < postKey v then v :: w :: ws else w :: insertDesc v ws

def sortDesc (l : List YT_Video) : List YT_Video :=
  l.foldl (fun acc v => insertDesc v acc) []

/-- `valid_results` (ytx.py line 303): drop records without a post date. -/
def valid_results (results : List YT_Video) : List YT_Video :=
  results.filter (fun r => r.post_date.isSome)

/-- `sorted_results` (ytx.py line 304). -/
def sorted_results (results : List YT_Video) : List YT_Video :=
  sortDesc (valid_results results)

/-- Python `f"{x}"` on an `Optional[str]`. -/
def optStr : Option String → String
  | none => "None"
  | some s => s

/-- Python truthiness of an `Optional[str]` field. -/
def truthyOptStr : Option String → Bool
  | none => false
  | some s => !s.isEmpty

/-- Records contributing lines to markdown output (ytx.py line 308). -/
def markdownRecords (results : List YT_Video) : List YT_Video :=
  (sorted_results results).filter (fun i => truthyOptStr i.markdown_link)

def markdownLines (results : List YT_Video) : List String :=
  (markdownRecords results).map (fun i => "- " ++ optStr i.markdown_link)

/-- Records contributing lines to extended output (ytx.py line 310). -/
def extendedRecords (results : List YT_Video) : List YT_Video :=
  (sorted_results results).filter (fun i => truthyOptStr i.extended_link)

def extendedLines (results : List YT_Video) : List String :=
  (extendedRecords results).map (fun i => "- " ++ optStr i.extended_link)

/-- Records contributing real entries to the alfred payload (ytx.py 313-318). -/
def alfredRecords (results : List YT_Video) : List YT_Video :=
  (sorted_results results).filter
    (fun i => truthyOptStr i.title && truthyOptStr i.short_url)

def alfredRealItems (results : List YT_Video) : List AlfredItem :=
  (alfredRecords results).map (fun i =>
    { title := optStr i.title ++ " (" ++ optStr i.duration ++ ")"
      arg := i.short_url
      subtitle := some (optStr i.post_date) })

def joinNL (lines : List String) : String := String.intercalate "\n" lines

/-- The alfred payload (ytx.py lines 311-337): when `sorted_results` is
nonempty, a synthetic copy-all entry is inserted at position 0 before the
real entries; otherwise a single invalid "no results" entry is emitted. -/
def alfredItemsOf (results : List YT_Video) : List AlfredItem :=
  if (sorted_results results).isEmpty then
    [{ title := "No results from the current clipboard contents!", valid := false }]
  else
    { title := "Copy all items in Markdown link format"
      subtitle := some ("(" ++ toString (alfredRealItems results).length ++ " videos)")
      arg := some (joinNL (extendedLines results))
      icon := some "copy-as-markdown.png" } :: alfredRealItems results

inductive OutputMode where
  | plain
  | markdown
  | extended
  | alfred
deriving DecidableEq

/-- The final `match OUTPUT_MODE` of `__main__` (ytx.py lines 306-339);
plain mode serializes the full unfiltered `results` list. -/
def render (mode : OutputMode) (results : List YT_Video) : ProgOutput :=
  match mode with
  | .markdown => .text (joinNL (markdownLines results))
  | .extended => .text (joinNL (extendedLines results))
  | .alfred => .alfred (alfredItemsOf results)
  | .plain => .plainRecords results

/-- End-to-end model of the run from the enrichment loop on: enrich every
pending record (a missing API key exits inside the first
`get_youtube_metadata` call), then render.  The second component counts
network requests. -/
def programOutput (apiKey : Option String) (inAlfred : Bool) (mode : OutputMode)
    (fetch : String → MetaResult) (videos : List YT_Video) : ProgOutput × Nat :=
  match enrichAll apiKey inAlfred fetch videos with
  | (.ok results, n) => (render mode results, n)
  | (.error out, n) => (out, n)

/-- The four URL shapes of claim C1, as constructed from a video id. -/
def watch_url (id : String) : String := "https://www.youtube.com/watch?v=" ++ id

def embed_url (id : String) : String := "https://www.youtube.com/embed/" ++ id

def shorts_url (id : String) : String := "https://www.youtube.com/shorts/" ++ id

def shortlink_url (id : String) : String := "https://youtu.be/" ++ id

/-- The id alphabet `[A-Za-z0-9_-]` of the claims. -/
def validIdChar (c : Char) : Bool := c.isAlphanum || c == '_' || c == '-'

/-- An enriched record carrying only a post date, for the concrete
sort-order example of claim C7. -/
def recOfDate (d : String) : YT_Video := { video_id := d, post_date := some d }

/-! ### Helper lemmas about the list-level primitives -/

theorem breakAt_clean {p : Char → Bool} : ∀ {cs : Chars}, (∀ c ∈ cs, p c = false) →
    breakAt p cs = (cs, [])
  | [], _ => rfl
  | c :: cs, h => by
    have hc : p c = false := h c (List.mem_cons_self c cs)
    have ih := breakAt_clean (fun d hd => h d (List.mem_cons_of_mem c hd))
    simp [breakAt, hc, ih]

theorem breakAt_append_found {p : Char → Bool} : ∀ (l r : Chars),
    (breakAt p l).2 ≠ [] →
    breakAt p (l ++ r) = ((breakAt p l).1, (breakAt p l).2 ++ r)
  | [], r, h => absurd rfl h
  | c :: cs, r, h => by
    cases hc : p c with
    | true => simp [breakAt, hc]
    | false =>
      have h' : (breakAt p cs).2 ≠ [] := by
        have he : (breakAt p (c :: cs)).2 = (breakAt p cs).2 := by simp [breakAt, hc]
        rw [he] at h
        exact h
      have ih := breakAt_append_found cs r h'
      simp [breakAt, hc, ih]

theorem splitSep_clean (sep : Char) : ∀ (cs : Chars), (∀ c ∈ cs, (c == sep) = false) →
    splitSep sep cs = [cs]
  | [], _ => rfl
  | c :: cs, h => by
    have hc := h c (List.mem_cons_self c cs)
    have ih := splitSep_clean sep cs (fun d hd => h d (List.mem_cons_of_mem c hd))
    simp [splitSep, hc, ih]

theorem isPrefixOf_append_left : ∀ (a l r : Chars), a.length ≤ l.length →
    List.isPrefixOf a (l ++ r) = List.isPrefixOf a l
  | [], l, r, _ => by simp [List.isPrefixOf]
  | x :: a, [], r, h => by simp at h
  | x :: a, y :: l, r, h => by
    have h' : a.length ≤ l.length := by simp [List.length_cons] at h; omega
    have ih := isPrefixOf_append_left a l r h'
    simp [List.isPrefixOf, ih]

theorem isPrefixOf_false_of_mem (a l : Chars) (d : Char) (hd : d ∈ a)
    (hl : ∀ c ∈ l, (c == d) = false) : List.isPrefixOf a l = false := by
  cases hp : List.isPrefixOf a l with
  | false => rfl
  | true =>
    have hpre : a <+: l := List.isPrefixOf_iff_prefix.mp hp
    have hdl : d ∈ l := hpre.sublist.subset hd
    simpa using hl d hdl

theorem map_eq_self {f : Char → Char} : ∀ {l : Chars}, (∀ c ∈ l, f c = c) → l.map f = l
  | [], _ => rfl
  | c :: cs, h => by
    have ih := map_eq_self (fun d hd => h d (List.mem_cons_of_mem c hd))
    simp [h c (List.mem_cons_self c cs), ih]

theorem pctDecode_clean : ∀ (cs : Chars), (∀ c ∈ cs, (c == '%') = false) → pctDecode cs = cs
  | [], _ => by rw [pctDecode]
  | c :: cs, h => by
    have hc := h c (List.mem_cons_self c cs)
    have ih := pctDecode_clean cs (fun d hd => h d (List.mem_cons_of_mem c hd))
    rw [pctDecode.eq_def]
    simp [hc, ih]

theorem unquote_plus_clean (cs : Chars)
    (h : ∀ c ∈ cs, (c == '+') = false ∧ (c == '%') = false) :
    unquote_plus cs = cs := by
  have h1 : cs.map (fun c => if c == '+' then ' ' else c) = cs :=
    map_eq_self (fun c hc => by simp [(h c hc).1])
  rw [unquote_plus, h1, pctDecode_clean cs (fun c hc => (h c hc).2)]

theorem contains_eq_false (l : Chars) (d : Char) (h : ∀ c ∈ l, (d == c) = false) :
    l.contains d = false := by
  rw [List.contains_eq_any_beq]
  cases ha : l.any (fun x => d == x) with
  | false => rfl
  | true =>
    obtain ⟨x, hx, hdx⟩ := List.any_eq_true.mp ha
    simp [h x hx] at hdx

theorem validIdChar_beq_false (c d : Char) (h : validIdChar c = true)
    (hd : validIdChar d = false) : (c == d) = false := by
  cases hcd : c == d with
  | false => rfl
  | true =>
    have hce : c = d := beq_iff_eq.mp hcd
    rw [hce] at h
    rw [h] at hd
    exact absurd hd (by decide)

theorem validIdChar_beq_false' (c d : Char) (h : validIdChar c = true)
    (hd : validIdChar d = false) : (d == c) = false := by
  cases hcd : d == c with
  | false => rfl
  | true =>
    have hce : d = c := beq_iff_eq.mp hcd
    rw [← hce] at h
    rw [h] at hd
    exact absurd hd (by decide)

theorem validIdChar_tabCrLf (c : Char) (h : validIdChar c = true) : tabCrLf c = false := by
  have h1 := validIdChar_beq_false c '\t' h (by decide)
  have h2 := validIdChar_beq_false c '\r' h (by decide)
  have h3 := validIdChar_beq_false c '\n' h (by decide)
  simp [tabCrLf, h1, h2, h3]

theorem id_clean_filter (id : Chars) (hv : ∀ c ∈ id, validIdChar c = true) :
    id.filter (fun c => !tabCrLf c) = id :=
  List.filter_eq_self.mpr (fun c hc => by simp [validIdChar_tabCrLf c (hv c hc)])

theorem takeWhile_append_stop {p : Char → Bool} (l : Chars) (a : Char) (r : Chars)
    (hl : ∀ c ∈ l, p c = true) (ha : p a = false) :
    List.takeWhile p (l ++ a :: r) = l := by
  induction l with
  | nil => simp [List.takeWhile_cons, ha]
  | cons c cs ih =>
    have hc := hl c (List.mem_cons_self c cs)
    simp [List.takeWhile_cons, hc, ih (fun d hd => hl d (List.mem_cons_of_mem c hd))]

theorem dropWhile_append_stop {p : Char → Bool} (l : Chars) (a : Char) (r : Chars)
    (hl : ∀ c ∈ l, p c = true) (ha : p a = false) :
    List.dropWhile p (l ++ a :: r) = a :: r := by
  induction l with
  | nil => simp [List.dropWhile_cons, ha]
  | cons c cs ih =>
    have hc := hl c (List.mem_cons_self c cs)
    simp [List.dropWhile_cons, hc, ih (fun d hd => hl d (List.mem_cons_of_mem c hd))]

theorem isoGroup_eat (unit : Char) (ds rest : Chars) (hne : ds ≠ [])
    (hd : ∀ c ∈ ds, c.isDigit = true) (hu : unit.isDigit = false) :
    isoGroup unit (ds ++ unit :: rest) = (some (decVal ds), rest) := by
  have hspan : (ds ++ unit :: rest).span (fun c => c.isDigit) = (ds, unit :: rest) := by
    rw [List.span_eq_take_drop, takeWhile_append_stop ds unit rest hd hu,
      dropWhile_append_stop ds unit rest hd hu]
  cases ds with
  | nil => exact absurd rfl hne
  | cons d ds' =>
    simp only [isoGroup, hspan]
    simp

theorem isoGroup_wrong (unit u : Char) (ds rest : Chars) (hne : ds ≠ [])
    (hd : ∀ c ∈ ds, c.isDigit = true) (hu : u.isDigit = false)
    (hnu : (u == unit) = false) :
    isoGroup unit (ds ++ u :: rest) = (none, ds ++ u :: rest) := by
  have hspan : (ds ++ u :: rest).span (fun c => c.isDigit) = (ds, u :: rest) := by
    rw [List.span_eq_take_drop, takeWhile_append_stop ds u rest hd hu,
      dropWhile_append_stop ds u rest hd hu]
  cases ds with
  | nil => exact absurd rfl hne
  | cons d ds' =>
    simp only [isoGroup, hspan]
    simp [hnu]

/-- Claim C3, counterexample: the claim asserts minutes are zero-padded to
two digits in both rendering shapes (`format_duration_claimC3`), but the
source pads minutes only in the `H:MM:SS` branch: `format_duration 45`
is `"0:45"`, not `"00:45"`. -/
theorem C3_counterexample :
    format_duration 45 = "0:45" ∧ format_duration_claimC3 45 = "00:45" ∧
    format_duration 45 ≠ format_duration_claimC3 45 := by
  decide

/-- Claim C3 (amended): `format_duration` renders `H:MM:SS` when hours > 0
(minutes and seconds zero-padded to two digits, hours unpadded) and
otherwise `M:SS` with the minutes rendered unpadded and only the seconds
zero-padded; `format_duration 3723 = "1:02:03"` and
`format_duration 45 = "0:45"`. -/
theorem C3_format_duration :
    (∀ seconds : Nat, ∃ hq m s, seconds = 3600 * hq + 60 * m + s ∧ m < 60 ∧ s < 60 ∧
      format_duration seconds =
        (if hq ≠ 0 then toString hq ++ ":" ++ pad2 m ++ ":" ++ pad2 s
         else toString m ++ ":" ++ pad2 s)) ∧
    (∀ x : Nat, x < 100 → (pad2 x).length = 2) ∧
    format_duration 3723 = "1:02:03" ∧ format_duration 45 = "0:45" := by
  refine ⟨?_, by decide, by decide, by decide⟩
  intro seconds
  refine ⟨seconds / 3600, seconds % 3600 / 60, seconds % 3600 % 60, by omega, by omega,
    by omega, rfl⟩

/-- Witness for `C3_format_duration` at a concrete input. -/
theorem C3_format_duration_witness : (7 : Nat) < 100 ∧ (pad2 7).length = 2 :=
  ⟨by decide, C3_format_duration.2.1 7 (by decide)⟩

/-- Claim C8, counterexample: `"PT1Hx"` does not match the whole-string
pattern `PT(\d+H)?(\d+M)?(\d+S)?`, yet `parse_iso8601_duration` returns
3600 (not 0), because `re.match` only anchors at the start. -/
theorem C8_counterexample :
    iso_full_match "PT1Hx" = false ∧ parse_iso8601_duration "PT1Hx" = 3600 ∧
    parse_iso8601_duration "PT1Hx" ≠ 0 := by
  decide

/-- Claim C8 (amended): `parse_iso8601_duration` matches
`PT(\d+H)?(\d+M)?(\d+S)?` against a prefix of the string; each component is
optional and defaults to zero, characters after the matched prefix are
ignored, and a string that does not start with `PT` yields 0;
`parse_iso8601_duration "PT1H2M3S" = 3723` and
`parse_iso8601_duration "PT45S" = 45`. -/
theorem C8_parse_iso8601 :
    (∀ s : String, "PT".data.isPrefixOf s.data = false → parse_iso8601_duration s = 0) ∧
    (∀ hd md sd rest : Chars, hd ≠ [] → (∀ c ∈ hd, c.isDigit = true) →
      md ≠ [] → (∀ c ∈ md, c.isDigit = true) → sd ≠ [] → (∀ c ∈ sd, c.isDigit = true) →
      parse_iso8601_duration_chars ("PT".data ++ (hd ++ 'H' :: (md ++ 'M' :: (sd ++ 'S' :: rest)))) =
        decVal hd * 3600 + decVal md * 60 + decVal sd) ∧
    (∀ sd rest : Chars, sd ≠ [] → (∀ c ∈ sd, c.isDigit = true) →
      parse_iso8601_duration_chars ("PT".data ++ (sd ++ 'S' :: rest)) = decVal sd) ∧
    parse_iso8601_duration "PT1H2M3S" = 3723 ∧ parse_iso8601_duration "PT45S" = 45 := by
  refine ⟨?_, ?_, ?_, by decide, by decide⟩
  · intro s h
    rw [parse_iso8601_duration, parse_iso8601_duration_chars.eq_def]
    split
    · next rest heq =>
      rw [heq] at h
      simp [List.isPrefixOf] at h
    · rfl
  · intro hd md sd rest h1 h2 h3 h4 h5 h6
    have hPT : "PT".data = ['P', 'T'] := rfl
    rw [hPT]
    simp only [List.cons_append, List.nil_append]
    simp only [parse_iso8601_duration_chars]
    rw [isoGroup_eat 'H' hd (md ++ 'M' :: (sd ++ 'S' :: rest)) h1 h2 (by decide)]
    simp only []
    rw [isoGroup_eat 'M' md (sd ++ 'S' :: rest) h3 h4 (by decide)]
    rw [isoGroup_eat 'S' sd rest h5 h6 (by decide)]
    simp
  · intro sd rest h1 h2
    have hPT : "PT".data = ['P', 'T'] := rfl
    rw [hPT]
    simp only [List.cons_append, List.nil_append]
    simp only [parse_iso8601_duration_chars]
    rw [isoGroup_wrong 'H' 'S' sd rest h1 h2 (by decide) (by decide)]
    rw [isoGroup_wrong 'M' 'S' sd rest h1 h2 (by decide) (by decide)]
    rw [isoGroup_eat 'S' sd rest h1 h2 (by decide)]
    simp

/-- Witness for `C8_parse_iso8601` at a concrete input. -/
theorem C8_parse_iso8601_witness :
    parse_iso8601_duration_chars ("PT".data ++ (['1'] ++ 'H' :: (['2'] ++ 'M' :: (['3'] ++ 'S' :: [])))) =
      decVal ['1'] * 3600 + decVal ['2'] * 60 + decVal ['3'] :=
  C8_parse_iso8601.2.1 ['1'] ['2'] ['3'] [] (by decide) (by decide) (by decide)
    (by decide) (by decide) (by decide)

theorem gvi_watch_chars (id : Chars) (hne : id ≠ [])
    (hfil : List.filter (fun c => !tabCrLf c) id = id)
    (hhash : breakAt (fun c => c == '#') id = (id, []))
    (hamp : splitSep '&' id = [id])
    (hunq : unquote_plus id = id) :
    get_video_info_chars ("https://www.youtube.com/watch?v=".data ++ id) = (some id, none) := by
  simp +decide [get_video_info_chars, urlparseModel, urlsplitModel, parse_qsl, splitSep,
    breakAt, firstQueryValue, List.isPrefixOf, hfil, hhash, hamp, hunq, hne]

theorem gvi_embed_chars (id : Chars) (_hne : id ≠ [])
    (hfil : List.filter (fun c => !tabCrLf c) id = id)
    (hhash : breakAt (fun c => c == '#') id = (id, []))
    (hques : breakAt (fun c => c == '?') id = (id, []))
    (hsemi : ';' ∉ id) :
    get_video_info_chars ("https://www.youtube.com/embed/".data ++ id) = (some id, none) := by
  simp +decide [get_video_info_chars, urlparseModel, urlsplitModel, parse_qsl, splitSep,
    breakAt, firstQueryValue, List.cons_prefix_cons, hfil, hhash, hques, hsemi]

theorem gvi_shorts_chars (id : Chars) (_hne : id ≠ [])
    (hfil : List.filter (fun c => !tabCrLf c) id = id)
    (hhash : breakAt (fun c => c == '#') id = (id, []))
    (hques : breakAt (fun c => c == '?') id = (id, []))
    (hsemi : ';' ∉ id) :
    get_video_info_chars ("https://www.youtube.com/shorts/".data ++ id) = (some id, none) := by
  simp +decide [get_video_info_chars, urlparseModel, urlsplitModel, parse_qsl, splitSep,
    breakAt, firstQueryValue, List.cons_prefix_cons, hfil, hhash, hques, hsemi]

theorem gvi_shortlink_chars (id : Chars) (_hne : id ≠ [])
    (hfil : List.filter (fun c => !tabCrLf c) id = id)
    (hhash : breakAt (fun c => c == '#') id = (id, []))
    (hques : breakAt (fun c => c == '?') id = (id, []))
    (hsemi : ';' ∉ id)
    (hembed : ¬("embed/".data <+: id))
    (hshorts : ¬("shorts/".data <+: id)) :
    get_video_info_chars ("https://youtu.be/".data ++ id) = (some id, none) := by
  simp +decide [get_video_info_chars, urlparseModel, urlsplitModel, parse_qsl, splitSep,
    breakAt, firstQueryValue, List.cons_prefix_cons, hfil, hhash, hques, hsemi,
    hembed, hshorts]

/-- Claim C1: for every video id drawn from `[A-Za-z0-9_-]+` and each of the
four supported URL shapes (watch, embed, shorts, youtu.be short-link),
constructing the URL from the id and passing it to `get_video_info` returns
exactly that id as the first component of the result. -/
theorem C1_resolver_roundtrip (id : String) (hne : id ≠ "")
    (hv : ∀ c ∈ id.data, validIdChar c = true) :
    (get_video_info (watch_url id)).1 = some id ∧
    (get_video_info (embed_url id)).1 = some id ∧
    (get_video_info (shorts_url id)).1 = some id ∧
    (get_video_info (shortlink_url id)).1 = some id := by
  have hdne : id.data ≠ [] := fun h => hne (String.ext h)
  have hfil := id_clean_filter id.data hv
  have hhash : breakAt (fun c => c == '#') id.data = (id.data, []) :=
    breakAt_clean (fun c hc => validIdChar_beq_false c '#' (hv c hc) (by decide))
  have hques : breakAt (fun c => c == '?') id.data = (id.data, []) :=
    breakAt_clean (fun c hc => validIdChar_beq_false c '?' (hv c hc) (by decide))
  have hamp : splitSep '&' id.data = [id.data] :=
    splitSep_clean '&' id.data (fun c hc => validIdChar_beq_false c '&' (hv c hc) (by decide))
  have hunq : unquote_plus id.data = id.data :=
    unquote_plus_clean id.data (fun c hc =>
      ⟨validIdChar_beq_false c '+' (hv c hc) (by decide),
       validIdChar_beq_false c '%' (hv c hc) (by decide)⟩)
  have hsemi : ';' ∉ id.data := fun h => absurd (hv ';' h) (by decide)
  have hembed : ¬("embed/".data <+: id.data) := fun h =>
    absurd (hv '/' (h.sublist.subset (by decide))) (by decide)
  have hshorts : ¬("shorts/".data <+: id.data) := fun h =>
    absurd (hv '/' (h.sublist.subset (by decide))) (by decide)
  have hw := gvi_watch_chars id.data hdne hfil hhash hamp hunq
  have he := gvi_embed_chars id.data hdne hfil hhash hques hsemi
  have hs := gvi_shorts_chars id.data hdne hfil hhash hques hsemi
  have hl := gvi_shortlink_chars id.data hdne hfil hhash hques hsemi hembed hshorts
  refine ⟨?_, ?_, ?_, ?_⟩
  · simp only [get_video_info, watch_url, String.data_append, hw]
    rfl
  · simp only [get_video_info, embed_url, String.data_append, he]
    rfl
  · simp only [get_video_info, shorts_url, String.data_append, hs]
    rfl
  · simp only [get_video_info, shortlink_url, String.data_append, hl]
    rfl

/-- Witness for `C1_resolver_roundtrip` at a concrete video id. -/
theorem C1_resolver_roundtrip_witness :
    (get_video_info (watch_url "dQw4w9WgXcQ")).1 = some "dQw4w9WgXcQ" ∧
    (get_video_info (embed_url "dQw4w9WgXcQ")).1 = some "dQw4w9WgXcQ" ∧
    (get_video_info (shorts_url "dQw4w9WgXcQ")).1 = some "dQw4w9WgXcQ" ∧
    (get_video_info (shortlink_url "dQw4w9WgXcQ")).1 = some "dQw4w9WgXcQ" :=
  C1_resolver_roundtrip "dQw4w9WgXcQ" (by decide) (by decide)

/-- Claim C4, counterexample: a URL that matches none of the four
classification rules can still carry a timestamp: with a `t` query
parameter on a foreign host, `get_video_info` returns `(none, some "5")`,
not `(none, none)` as the claim states. -/
theorem C4_counterexample :
    get_video_info "https://example.com/page?t=5" = (none, some "5") ∧
    ((none : Option String), some "5") ≠ ((none : Option String), (none : Option String)) :=
  ⟨by decide, by decide⟩

/-- Claim C4 (amended): a string failing URL syntax parsing yields
`(none, none)`; a URL matching none of the four classification rules yields
a `none` video id (and never raises — the function is total), while the
returned timestamp is still the first `t` query parameter if one exists. -/
theorem C4_unclassified (url : String) :
    (urlparseModel url.data = none → get_video_info url = (none, none)) ∧
    (∀ pr, urlparseModel url.data = some pr →
      "/embed/".data.isPrefixOf pr.path = false →
      "/shorts/".data.isPrefixOf pr.path = false →
      containsSub "youtu.be".data (pr.netloc.map Char.toLower) = false →
      containsSub "youtube.com".data (pr.netloc.map Char.toLower) = false →
      (get_video_info url).1 = none ∧
      (get_video_info url).2 =
        (firstQueryValue (parse_qsl pr.query) "t".data).map String.mk) := by
  constructor
  · intro h
    simp [get_video_info, get_video_info_chars, h]
  · intro pr h h1 h2 h3 h4
    simp only [get_video_info, get_video_info_chars, h, h1, h2, h3, h4]
    simp

/-- Witness for `C4_unclassified` at a concrete unclassifiable URL. -/
theorem C4_unclassified_witness :
    (get_video_info "https://example.com/a").1 = none :=
  (((C4_unclassified "https://example.com/a").2
    ⟨"https".data, "example.com".data, "/a".data, []⟩
    (by decide) (by decide) (by decide) (by decide) (by decide))).1

/-- Claim C9: the resolver timestamp is the first `t` query parameter of
the parsed URL; a `t` value of `"125s"` is stored as `"125"` by the
aggregator (trailing `s` stripped), a URL without `t` stores no timestamp,
and in general the stored value is exactly `rstrip_s` of the resolver
value — no numeric validation, a non-numeric leftover passes through. -/
theorem C9_timestamp :
    (∀ (url : String) (pr : UrlParts), urlparseModel url.data = some pr →
       (get_video_info url).2 =
         (firstQueryValue (parse_qsl pr.query) "t".data).map String.mk) ∧
    (∀ (url v : String), (get_video_info url).1 = some v →
       (get_video_info url).2 = some "125s" →
       extract_video_id [url] = [{ video_id := v, timestamp := some "125" }]) ∧
    (∀ (url v : String), (get_video_info url).1 = some v →
       (get_video_info url).2 = none →
       extract_video_id [url] = [{ video_id := v, timestamp := none }]) ∧
    (∀ (url v ts : String), (get_video_info url).1 = some v →
       (get_video_info url).2 = some ts →
       extract_video_id [url] = [{ video_id := v, timestamp := some (rstrip_s ts) }]) := by
  refine ⟨?_, ?_, ?_, ?_⟩
  · intro url pr h
    simp [get_video_info, get_video_info_chars, h]
  · intro url v h1 h2
    have hp : get_video_info url = (some v, some "125s") := Prod.ext h1 h2
    simp [extract_video_id, extractGo, hp, (show rstrip_s "125s" = "125" by decide)]
  · intro url v h1 h2
    have hp : get_video_info url = (some v, none) := Prod.ext h1 h2
    simp [extract_video_id, extractGo, hp]
  · intro url v ts h1 h2
    have hp : get_video_info url = (some v, some ts) := Prod.ext h1 h2
    simp [extract_video_id, extractGo, hp]

/-- Witness for `C9_timestamp` at a concrete short-link with `?t=125s`. -/
theorem C9_timestamp_witness :
    extract_video_id ["https://youtu.be/abc?t=125s"] =
      [{ video_id := "abc", timestamp := some "125" }] :=
  C9_timestamp.2.1 "https://youtu.be/abc?t=125s" "abc" (by decide) (by decide)

theorem dropWhile_replicate_s : ∀ (k : Nat) (t : Chars),
    List.dropWhile (fun c => c == 's') (List.replicate k 's' ++ t) =
      List.dropWhile (fun c => c == 's') t
  | 0, t => by simp
  | k + 1, t => by
    simp [List.replicate_succ, List.dropWhile_cons, dropWhile_replicate_s k t]

theorem head_dropWhile_false {p : Char → Bool} : ∀ (l : Chars) {c : Char},
    (List.dropWhile p l).head? = some c → p c = false
  | [], c, h => by simp at h
  | a :: l, c, h => by
    cases hp : p a with
    | true =>
      rw [List.dropWhile_cons, if_pos hp] at h
      exact head_dropWhile_false l h
    | false =>
      rw [List.dropWhile_cons, if_neg (by simp [hp])] at h
      simp at h
      rw [← h]
      exact hp

/-- Claim C10: the timestamp suffix-stripping removes every trailing `s`
(`t=90ss` stores `"90"`); a `t` value of only `s` characters stores the
empty string, which enrichment still treats as present, so the rendered
short URL ends in a bare `?t=`. -/
theorem C10_strip_all_s :
    extract_video_id ["https://youtu.be/abc?t=90ss"] =
      [{ video_id := "abc", timestamp := some "90" }] ∧
    extract_video_id ["https://youtu.be/abc?t=ss"] =
      [{ video_id := "abc", timestamp := some "" }] ∧
    (∀ (s : String) (k : Nat), rstrip_s (s ++ String.mk (List.replicate k 's')) = rstrip_s s) ∧
    (∀ (cs : Chars) (c : Char), (rstripChars cs).getLast? = some c → c ≠ 's') ∧
    (∀ m : Metadata, m.short_url ≠ "" →
       (YT_Video.from_metadata m (some "")).short_url = some (m.short_url ++ "?t=")) := by
  refine ⟨by decide, by decide, ?_, ?_, ?_⟩
  · intro s k
    rw [rstrip_s, rstrip_s]
    have hdata : (s ++ String.mk (List.replicate k 's')).data =
        s.data ++ List.replicate k 's' := String.data_append s (String.mk (List.replicate k 's'))
    rw [hdata, rstripChars, rstripChars, List.reverse_append, List.reverse_replicate,
      dropWhile_replicate_s]
  · intro cs c hc
    rw [rstripChars, List.getLast?_reverse] at hc
    have := head_dropWhile_false cs.reverse hc
    exact beq_eq_false_iff_ne.mp this
  · intro m hm
    simp [YT_Video.from_metadata, hm, String.append_empty]

/-- Witness for `C10_strip_all_s` at concrete inputs. -/
theorem C10_strip_all_s_witness :
    (YT_Video.from_metadata
      { video_id := "x", title := "T", channel := "C", post_date := "2024-01-01",
        view_count := 1, duration := "0:45", short_url := "https://youtu.be/x" }
      (some "")).short_url = some ("https://youtu.be/x" ++ "?t=") :=
  C10_strip_all_s.2.2.2.2
    { video_id := "x", title := "T", channel := "C", post_date := "2024-01-01",
      view_count := 1, duration := "0:45", short_url := "https://youtu.be/x" }
    (by decide)

theorem any_of_countP_pos {v : String} {acc : List YT_Video}
    (h : 1 ≤ acc.countP (fun r => r.video_id == v)) :
    acc.any (fun r => r.video_id == v) = true :=
  List.any_eq_true.mpr (List.countP_pos_iff.mp h)

theorem countP_pos_of_any {v : String} {acc : List YT_Video}
    (h : acc.any (fun r => r.video_id == v) = true) :
    1 ≤ acc.countP (fun r => r.video_id == v) :=
  List.countP_pos_iff.mpr (List.any_eq_true.mp h)

theorem any_eq_false_of_countP_zero {v : String} {acc : List YT_Video}
    (h : acc.countP (fun r => r.video_id == v) = 0) :
    acc.any (fun r => r.video_id == v) = false := by
  cases hx : acc.any (fun r => r.video_id == v) with
  | false => rfl
  | true =>
    have := countP_pos_of_any hx
    omega

theorem extractGo_countP_stay (v : String) : ∀ (items : List String) (acc : List YT_Video),
    1 ≤ acc.countP (fun r => r.video_id == v) →
    (extractGo acc items).countP (fun r => r.video_id == v) =
      acc.countP (fun r => r.video_id == v)
  | [], _, _ => rfl
  | item :: items, acc, h => by
    have hany := any_of_countP_pos h
    cases hgv : get_video_info item with
    | mk vid ts =>
      cases vid with
      | none =>
        simp only [extractGo, hgv]
        exact extractGo_countP_stay v items acc h
      | some w =>
        simp only [extractGo, hgv]
        by_cases hw : acc.any (fun r => r.video_id == w) = true
        · simp only [hw, if_true]
          exact extractGo_countP_stay v items acc h
        · have hwb : acc.any (fun r => r.video_id == w) = false := by
            cases hx : acc.any (fun r => r.video_id == w) with
            | false => rfl
            | true => exact absurd hx hw
          have hvw : (w == v) = false := by
            cases hx : w == v with
            | false => rfl
            | true =>
              rw [beq_iff_eq.mp hx, hany] at hwb
              exact absurd hwb (by decide)
          have hcount : (acc ++ [({ video_id := w, timestamp := ts.map rstrip_s } : YT_Video)]).countP
              (fun r => r.video_id == v) = acc.countP (fun r => r.video_id == v) := by
            rw [List.countP_append]
            simp [List.countP_cons, hvw]
          simp only [hwb, Bool.false_eq_true, if_false]
          rw [extractGo_countP_stay v items _ (by rw [hcount]; exact h), hcount]

theorem extractGo_countP_one (v : String) : ∀ (items : List String) (acc : List YT_Video),
    acc.countP (fun r => r.video_id == v) = 0 →
    (∃ i ∈ items, (get_video_info i).1 = some v) →
    (extractGo acc items).countP (fun r => r.video_id == v) = 1
  | [], _, _, hex => by simp at hex
  | item :: items, acc, h0, hex => by
    have hanyf := any_eq_false_of_countP_zero h0
    cases hgv : get_video_info item with
    | mk vid ts =>
      cases vid with
      | none =>
        simp only [extractGo, hgv]
        apply extractGo_countP_one v items acc h0
        obtain ⟨i, hi, hres⟩ := hex
        rcases List.mem_cons.mp hi with rfl | hi'
        · rw [hgv] at hres
          simp at hres
        · exact ⟨i, hi', hres⟩
      | some w =>
        simp only [extractGo, hgv]
        by_cases hwv : w = v
        · subst hwv
          simp only [hanyf, Bool.false_eq_true, if_false]
          have hcnt : (acc ++ [({ video_id := w, timestamp := ts.map rstrip_s } : YT_Video)]).countP
              (fun r => r.video_id == w) = 1 := by
            rw [List.countP_append, h0]
            simp
          rw [extractGo_countP_stay w items _ (Nat.le_of_eq hcnt.symm)]
          exact hcnt
        · have hwvb : (w == v) = false := beq_eq_false_iff_ne.mpr hwv
          have hex' : ∃ i ∈ items, (get_video_info i).1 = some v := by
            obtain ⟨i, hi, hres⟩ := hex
            rcases List.mem_cons.mp hi with rfl | hi'
            · rw [hgv] at hres
              simp at hres
              exact absurd hres hwv
            · exact ⟨i, hi', hres⟩
          by_cases hw : acc.any (fun r => r.video_id == w) = true
          · simp only [hw, if_true]
            exact extractGo_countP_one v items acc h0 hex'
          · have hwb : acc.any (fun r => r.video_id == w) = false := by
              cases hx : acc.any (fun r => r.video_id == w) with
              | false => rfl
              | true => exact absurd hx hw
            simp only [hwb, Bool.false_eq_true, if_false]
            apply extractGo_countP_one v items _ ?_ hex'
            rw [List.countP_append, h0]
            simp [List.countP_cons, hwvb]

theorem extractGo_mem_acc (v : String) : ∀ (items : List String) (acc : List YT_Video),
    acc.any (fun r => r.video_id == v) = true →
    ∀ r ∈ extractGo acc items, (r.video_id == v) = true → r ∈ acc
  | [], _, _, _, hr, _ => hr
  | item :: items, acc, hany, r, hr, hrv => by
    cases hgv : get_video_info item with
    | mk vid ts =>
      cases vid with
      | none =>
        simp only [extractGo, hgv] at hr
        exact extractGo_mem_acc v items acc hany r hr hrv
      | some w =>
        simp only [extractGo, hgv] at hr
        by_cases hw : acc.any (fun r => r.video_id == w) = true
        · rw [if_pos hw] at hr
          exact extractGo_mem_acc v items acc hany r hr hrv
        · have hwb : acc.any (fun r => r.video_id == w) = false := by
            cases hx : acc.any (fun r => r.video_id == w) with
            | false => rfl
            | true => exact absurd hx hw
          rw [if_neg (by simp [hwb])] at hr
          have hany' : (acc ++ [({ video_id := w, timestamp := ts.map rstrip_s } : YT_Video)]).any
              (fun r => r.video_id == v) = true := by
            rw [List.any_append, hany]
            rfl
          have hmem := extractGo_mem_acc v items _ hany' r hr hrv
          rcases List.mem_append.mp hmem with hin | hin
          · exact hin
          · exfalso
            have hrw : r = { video_id := w, timestamp := ts.map rstrip_s } := by
              simpa using hin
            have hwv : (w == v) = true := by
              rw [hrw] at hrv
              exact hrv
            rw [beq_iff_eq.mp hwv, hany] at hwb
            exact absurd hwb (by decide)

theorem extractGo_timestamp (v : String) : ∀ (items : List String) (acc : List YT_Video),
    acc.countP (fun r => r.video_id == v) = 0 →
    ∀ r ∈ extractGo acc items, (r.video_id == v) = true →
      r.timestamp = ((items.find? (fun i => (get_video_info i).1 == some v)).bind
        (fun i => ((get_video_info i).2).map rstrip_s))
  | [], acc, h0, r, hr, hrv => by
    exfalso
    have : 0 < acc.countP (fun x => x.video_id == v) := List.countP_pos_iff.mpr ⟨r, hr, hrv⟩
    omega
  | item :: items, acc, h0, r, hr, hrv => by
    cases hgv : get_video_info item with
    | mk vid ts =>
      cases vid with
      | none =>
        simp only [extractGo, hgv] at hr
        rw [List.find?_cons_of_neg _ (by rw [hgv]; simp)]
        exact extractGo_timestamp v items acc h0 r hr hrv
      | some w =>
        by_cases hwv : w = v
        · subst hwv
          have hanyf := any_eq_false_of_countP_zero h0
          simp only [extractGo, hgv, hanyf, Bool.false_eq_true, if_false] at hr
          rw [List.find?_cons_of_pos _ (by rw [hgv]; simp)]
          have hany' : (acc ++ [({ video_id := w, timestamp := ts.map rstrip_s } : YT_Video)]).any
              (fun r => r.video_id == w) = true := by
            rw [List.any_append]
            simp
          have hmem := extractGo_mem_acc w items _ hany' r hr hrv
          rcases List.mem_append.mp hmem with hin | hin
          · exfalso
            have : 0 < acc.countP (fun x => x.video_id == w) :=
              List.countP_pos_iff.mpr ⟨r, hin, hrv⟩
            omega
          · have hrw : r = { video_id := w, timestamp := ts.map rstrip_s } := by
              simpa using hin
            rw [hrw]
            simp [hgv]
        · have hwvb : (w == v) = false := beq_eq_false_iff_ne.mpr hwv
          rw [List.find?_cons_of_neg _ (by rw [hgv]; simp [hwv])]
          by_cases hw : acc.any (fun r => r.video_id == w) = true
          · simp only [extractGo, hgv, hw, if_true] at hr
            exact extractGo_timestamp v items acc h0 r hr hrv
          · have hwb : acc.any (fun r => r.video_id == w) = false := by
              cases hx : acc.any (fun r => r.video_id == w) with
              | false => rfl
              | true => exact absurd hx hw
            simp only [extractGo, hgv, hwb, Bool.false_eq_true, if_false] at hr
            apply extractGo_timestamp v items _ ?_ r hr hrv
            rw [List.countP_append, h0]
            simp [List.countP_cons, hwvb]

/-- Claim C2: when two or more input URLs resolve to the same video id,
`extract_video_id` produces exactly one record for that id, and its stored
timestamp is the (suffix-stripped) timestamp of the first-encountered
occurrence — later occurrences never update it. -/
theorem C2_dedup (items : List String) (v : String)
    (h : 2 ≤ items.countP (fun i => (get_video_info i).1 == some v)) :
    (extract_video_id items).countP (fun r => r.video_id == v) = 1 ∧
    (∀ r ∈ extract_video_id items, (r.video_id == v) = true →
      r.timestamp = ((items.find? (fun i => (get_video_info i).1 == some v)).bind
        (fun i => ((get_video_info i).2).map rstrip_s))) := by
  have hex : ∃ i ∈ items, (get_video_info i).1 = some v := by
    have hpos : 0 < items.countP (fun i => (get_video_info i).1 == some v) := by omega
    obtain ⟨i, hi, hp⟩ := List.countP_pos_iff.mp hpos
    exact ⟨i, hi, beq_iff_eq.mp hp⟩
  exact ⟨extractGo_countP_one v items [] rfl hex,
    fun r hr hrv => extractGo_timestamp v items [] rfl r hr hrv⟩

/-- Witness for `C2_dedup`: two short-links to the same video with
different timestamps. -/
theorem C2_dedup_witness :
    (extract_video_id ["https://youtu.be/abc?t=125s", "https://youtu.be/abc?t=99"]).countP
      (fun r => r.video_id == "abc") = 1 ∧
    (∀ r ∈ extract_video_id ["https://youtu.be/abc?t=125s", "https://youtu.be/abc?t=99"],
      (r.video_id == "abc") = true →
      r.timestamp = ((["https://youtu.be/abc?t=125s", "https://youtu.be/abc?t=99"].find?
        (fun i => (get_video_info i).1 == some "abc")).bind
        (fun i => ((get_video_info i).2).map rstrip_s))) :=
  C2_dedup ["https://youtu.be/abc?t=125s", "https://youtu.be/abc?t=99"] "abc" (by decide)

theorem insertDesc_perm (v : YT_Video) : ∀ (l : List YT_Video), (insertDesc v l).Perm (v :: l)
  | [] => List.Perm.refl _
  | w :: ws => by
    rw [insertDesc]
    by_cases h : postKey w < postKey v
    · rw [if_pos h]
    · rw [if_neg h]
      exact ((insertDesc_perm v ws).cons w).trans (List.Perm.swap v w ws)

theorem sortDesc_go_perm : ∀ (l acc : List YT_Video),
    (l.foldl (fun a v => insertDesc v a) acc).Perm (acc ++ l)
  | [], acc => by simp
  | v :: l, acc => by
    rw [List.foldl_cons]
    have h1 := sortDesc_go_perm l (insertDesc v acc)
    have h2 : (insertDesc v acc ++ l).Perm (acc ++ v :: l) :=
      ((insertDesc_perm v acc).append_right l).trans List.perm_middle.symm
    exact h1.trans h2

theorem sortDesc_perm (l : List YT_Video) : (sortDesc l).Perm l := by
  simpa [sortDesc] using sortDesc_go_perm l []

theorem insertDesc_pairwise (v : YT_Video) : ∀ (l : List YT_Video),
    List.Pairwise (fun a b => postKey b ≤ postKey a) l →
    List.Pairwise (fun a b => postKey b ≤ postKey a) (insertDesc v l)
  | [], _ => by simp [insertDesc]
  | w :: ws, h => by
    rw [insertDesc]
    rcases List.pairwise_cons.mp h with ⟨hw, hws⟩
    by_cases hlt : postKey w < postKey v
    · rw [if_pos hlt]
      refine List.pairwise_cons.mpr ⟨?_, h⟩
      intro x hx
      rcases List.mem_cons.mp hx with rfl | hx'
      · exact Nat.le_of_lt hlt
      · exact le_trans (hw x hx') (Nat.le_of_lt hlt)
    · rw [if_neg hlt]
      refine List.pairwise_cons.mpr ⟨?_, insertDesc_pairwise v ws hws⟩
      intro x hx
      have hx2 : x ∈ v :: ws := (insertDesc_perm v ws).mem_iff.mp hx
      rcases List.mem_cons.mp hx2 with rfl | hx'
      · exact Nat.le_of_not_lt hlt
      · exact hw x hx'

theorem sortDesc_go_pairwise : ∀ (l acc : List YT_Video),
    List.Pairwise (fun a b => postKey b ≤ postKey a) acc →
    List.Pairwise (fun a b => postKey b ≤ postKey a)
      (l.foldl (fun a v => insertDesc v a) acc)
  | [], _, h => h
  | v :: l, acc, h => by
    rw [List.foldl_cons]
    exact sortDesc_go_pairwise l _ (insertDesc_pairwise v acc h)

theorem sortDesc_pairwise (l : List YT_Video) :
    List.Pairwise (fun a b => postKey b ≤ postKey a) (sortDesc l) :=
  sortDesc_go_pairwise l [] List.Pairwise.nil

theorem sortDesc_strict (l : List YT_Video)
    (hne : List.Pairwise (fun a b => postKey a ≠ postKey b) l) :
    List.Pairwise (fun a b => postKey b < postKey a) (sortDesc l) := by
  have h1 := sortDesc_pairwise l
  have h2 : List.Pairwise (fun a b => postKey a ≠ postKey b) (sortDesc l) :=
    ((sortDesc_perm l).pairwise_iff (fun h => h.symm)).mpr hne
  refine (h1.and h2).imp ?_
  intro a b hab
  exact lt_of_le_of_ne hab.1 (Ne.symm hab.2)

/-- Claim C6: a record whose `post_date` is absent never appears among the
records rendered by markdown, extended, or launcher output (all of which
are filters of `sorted_results`), but is present in the plain-mode record
list (the full unfiltered `results`). -/
theorem C6_no_post_date_filtered (results : List YT_Video) (r : YT_Video)
    (hmem : r ∈ results) (hnone : r.post_date = none) :
    r ∉ sorted_results results ∧ r ∉ markdownRecords results ∧
    r ∉ extendedRecords results ∧ r ∉ alfredRecords results ∧
    render OutputMode.plain results = ProgOutput.plainRecords results ∧ r ∈ results := by
  have hns : r ∉ sorted_results results := by
    intro hin
    have h2 : r ∈ valid_results results := (sortDesc_perm _).mem_iff.mp hin
    have h3 := (List.mem_filter.mp h2).2
    rw [hnone] at h3
    simp at h3
  refine ⟨hns, ?_, ?_, ?_, rfl, hmem⟩
  · intro hin
    exact hns (List.mem_filter.mp hin).1
  · intro hin
    exact hns (List.mem_filter.mp hin).1
  · intro hin
    exact hns (List.mem_filter.mp hin).1

/-- Witness for `C6_no_post_date_filtered` at a concrete pending record. -/
theorem C6_no_post_date_filtered_witness :
    ({ video_id := "abc" } : YT_Video) ∉ sorted_results [{ video_id := "abc" }] ∧
    ({ video_id := "abc" } : YT_Video) ∈ [({ video_id := "abc" } : YT_Video)] :=
  ⟨((C6_no_post_date_filtered [{ video_id := "abc" }] { video_id := "abc" }
      (by simp) rfl)).1,
   by simp⟩

/-- Claim C7, counterexample: with two enriched records sharing a post
date, the sorted output is not strictly descending (the claim says
"strictly descending order of post_date"). -/
theorem C7_counterexample :
    sorted_results [recOfDate "2024-01-01",
        ({ video_id := "b", post_date := some "2024-01-01" } : YT_Video)] =
      [recOfDate "2024-01-01", ({ video_id := "b", post_date := some "2024-01-01" } : YT_Video)] ∧
    ¬ (postKey ({ video_id := "b", post_date := some "2024-01-01" } : YT_Video) <
        postKey (recOfDate "2024-01-01")) :=
  ⟨by decide, by decide⟩

/-- Claim C7 (amended): markdown, extended, and launcher outputs list
enriched records in descending order of `post_date` (strictly descending
whenever the post dates are pairwise distinct; records sharing a date keep
enrichment order); the concrete example sorts as stated; plain mode emits
the full unfiltered record list in enrichment order, unsorted. -/
theorem C7_sort_order :
    (∀ results : List YT_Video,
      List.Pairwise (fun a b => postKey b ≤ postKey a) (sorted_results results) ∧
      List.Pairwise (fun a b => postKey b ≤ postKey a) (markdownRecords results) ∧
      List.Pairwise (fun a b => postKey b ≤ postKey a) (extendedRecords results) ∧
      List.Pairwise (fun a b => postKey b ≤ postKey a) (alfredRecords results) ∧
      render OutputMode.plain results = ProgOutput.plainRecords results) ∧
    (∀ results : List YT_Video,
      List.Pairwise (fun a b => postKey a ≠ postKey b) (valid_results results) →
      List.Pairwise (fun a b => postKey b < postKey a) (sorted_results results)) ∧
    sorted_results [recOfDate "2024-01-01", recOfDate "2023-06-15", recOfDate "2024-06-01"] =
      [recOfDate "2024-06-01", recOfDate "2024-01-01", recOfDate "2023-06-15"] := by
  refine ⟨?_, ?_, by decide⟩
  · intro results
    have h := sortDesc_pairwise (valid_results results)
    exact ⟨h, List.Pairwise.sublist (List.filter_sublist _) h,
      List.Pairwise.sublist (List.filter_sublist _) h,
      List.Pairwise.sublist (List.filter_sublist _) h, rfl⟩
  · intro results h
    exact sortDesc_strict (valid_results results) h

/-- Witness for `C7_sort_order` (strictness clause) at concrete records. -/
theorem C7_sort_order_witness :
    List.Pairwise (fun a b => postKey b < postKey a)
      (sorted_results [recOfDate "2024-01-01", recOfDate "2024-06-01"]) :=
  C7_sort_order.2.1 [recOfDate "2024-01-01", recOfDate "2024-06-01"] (by decide)

/-- Claim C5, counterexample: launcher output mode selected via the `-a`
flag outside the Alfred host environment — the API key is missing, yet the
program prints the stderr diagnostic and exits: no launcher payload is
emitted, because `check_apikey` branches on the environment marker
(`in_alfred`), not on `OUTPUT_MODE`. -/
theorem C5_counterexample :
    (programOutput none false OutputMode.alfred (fun _ => MetaResult.err "e")
      [{ video_id := "abc" }]).2 = 0 ∧
    ∀ items, (programOutput none false OutputMode.alfred (fun _ => MetaResult.err "e")
      [{ video_id := "abc" }]).1 ≠ ProgOutput.alfred items := by
  constructor
  · rfl
  · intro items h
    simp [programOutput, enrichAll, check_apikey_exit, truthyKey] at h

/-- Claim C5 (amended): inside the Alfred host environment (which is what
forces launcher output mode), a missing or empty API key makes the run
print exactly one launcher payload whose single entry has `valid := false`,
with zero network requests performed, and terminate. -/
theorem C5_missing_key (apiKey : Option String) (fetch : String → MetaResult)
    (videos : List YT_Video) (hkey : truthyKey apiKey = false) :
    ∃ items, programOutput apiKey true OutputMode.alfred fetch videos =
        (ProgOutput.alfred items, 0) ∧
      items.length = 1 ∧ ∀ i ∈ items, i.valid = false := by
  cases videos with
  | nil =>
    refine ⟨[{ title := "No results from the current clipboard contents!", valid := false }],
      ?_, rfl, ?_⟩
    · simp [programOutput, enrichAll, render, alfredItemsOf, sorted_results, valid_results,
        sortDesc]
    · intro i hi
      simp at hi
      rw [hi]
  | cons v vs =>
    refine ⟨apikey_error_items, ?_, rfl, ?_⟩
    · simp [programOutput, enrichAll, check_apikey_exit, hkey]
    · intro i hi
      simp [apikey_error_items] at hi
      rw [hi]

/-- Witness for `C5_missing_key` with a concrete pending video. -/
theorem C5_missing_key_witness :
    ∃ items, programOutput none true OutputMode.alfred (fun _ => MetaResult.err "e")
        [{ video_id := "abc" }] = (ProgOutput.alfred items, 0) ∧
      items.length = 1 ∧ ∀ i ∈ items, i.valid = false :=
  C5_missing_key none (fun _ => MetaResult.err "e") [{ video_id := "abc" }] rfl
